import Mathlib

/-
  Verification development for the media-worker audio splitter.

  Shallow embedding of src/audio_splitter.py.  Python floats are modelled as
  exact rationals (ℚ); Python ints as ℤ.  Python round() (banker's rounding,
  ties to even) is modelled by pyRound; round(x, 3) by round3; int() truncation
  toward zero by pyInt; float floor-division // by Int.floor of the quotient.
  The network / subprocess / storage collaborators are modelled as an
  environment of probe answers plus an observable event trace.
-/

namespace MediaWorker

/-- Python round-half-to-even (banker's rounding) of a rational to an integer,
mirroring the builtin round() applied to the exact value. -/
def pyRound (q : ℚ) : ℤ :=
  if q - (⌊q⌋ : ℚ) < 1/2 then ⌊q⌋
  else if 1/2 < q - (⌊q⌋ : ℚ) then ⌊q⌋ + 1
  else if ⌊q⌋ % 2 = 0 then ⌊q⌋ else ⌊q⌋ + 1

/-- Python round(x, 3): rounding to 3 decimal places, ties to even. -/
def round3 (q : ℚ) : ℚ := ((pyRound (q * 1000) : ℚ)) / 1000

/-- Python int(x): truncation toward zero. -/
def pyInt (q : ℚ) : ℤ := if q < 0 then -⌊-q⌋ else ⌊q⌋

/-- The epsilon guard used by the planner (audio_splitter.py line 71). -/
def eps : ℚ := 1 / 1000

/-- max_k of the planner: int((audio_dur - eps) // cycle)
(audio_splitter.py line 72). -/
def maxCycleIndex (audio_dur cycle : ℚ) : ℤ := ⌊(audio_dur - eps) / cycle⌋

/-- One iteration of the planner loop body (audio_splitter.py lines 78-85):
given the loop index i and the previously chosen index k_prev, compute the
chosen cycle index k, including the collapse branch that overwrites
min_allowed with max_allowed when min_allowed > max_allowed. -/
def chooseK (audio_dur cycle : ℚ) (segments max_k i k_prev : ℤ) : ℤ :=
  let ideal_len := audio_dur / (segments : ℚ)
  let ideal_time := (i : ℚ) * ideal_len
  let ideal_k := pyRound (ideal_time / cycle)
  let min_allowed := k_prev + 1
  let max_allowed := max_k - ((segments - 1) - i)
  let min_allowed := if min_allowed > max_allowed then max_allowed else min_allowed
  max (min ideal_k max_allowed) min_allowed

/-- Variant of chooseK with the degenerate collapse branch removed
(min_allowed is never overwritten).  Used to state that the collapse branch
is dead under the feasibility precondition. -/
def chooseKStrict (audio_dur cycle : ℚ) (segments max_k i k_prev : ℤ) : ℤ :=
  let ideal_len := audio_dur / (segments : ℚ)
  let ideal_time := (i : ℚ) * ideal_len
  let ideal_k := pyRound (ideal_time / cycle)
  let min_allowed := k_prev + 1
  let max_allowed := max_k - ((segments - 1) - i)
  max (min ideal_k max_allowed) min_allowed

/-- The planner loop for i in range(1, segments) (audio_splitter.py
lines 78-86), written with explicit fuel = number of remaining iterations. -/
def ksFrom (audio_dur cycle : ℚ) (segments max_k : ℤ) :
    ℕ → ℤ → ℤ → List ℤ
  | 0, _, _ => []
  | fuel+1, i, k_prev =>
    let k := chooseK audio_dur cycle segments max_k i k_prev
    k :: ksFrom audio_dur cycle segments max_k fuel (i+1) k

/-- The planner loop with the collapse-free iteration body. -/
def ksFromStrict (audio_dur cycle : ℚ) (segments max_k : ℤ) :
    ℕ → ℤ → ℤ → List ℤ
  | 0, _, _ => []
  | fuel+1, i, k_prev =>
    let k := chooseKStrict audio_dur cycle segments max_k i k_prev
    k :: ksFromStrict audio_dur cycle segments max_k fuel (i+1) k

/-- The planner's failure: ValueError("No hay ciclos suficientes ...")
at audio_splitter.py line 74. -/
inductive PlannerError
  | insufficientCycles
deriving DecidableEq

/-- compute_equalized_cycle_cuts (audio_splitter.py lines 68-87). -/
def compute_equalized_cycle_cuts (audio_dur : ℚ) (segments : ℤ) (cycle : ℚ) :
    Except PlannerError (List ℚ) :=
  if segments = 1 then .ok [0, audio_dur]
  else
    let max_k := maxCycleIndex audio_dur cycle
    if max_k < segments - 1 then .error .insufficientCycles
    else
      let ks := ksFrom audio_dur cycle segments max_k (segments - 1).toNat 1 0
      .ok ([0] ++ ks.map (fun k : ℤ => round3 ((k : ℚ) * cycle)) ++ [round3 audio_dur])

/-- Zero-padded decimal of width at least 2, mirroring f-string 02d. -/
def pad2 (n : ℕ) : String := if n < 10 then "0" ++ Nat.repr n else Nat.repr n

/-- Zero-padded decimal of width at least 3, mirroring f-string 03d. -/
def pad3 (n : ℕ) : String :=
  if n < 10 then "00" ++ Nat.repr n
  else if n < 100 then "0" ++ Nat.repr n
  else Nat.repr n

/-- hhmmss_ms (audio_splitter.py lines 61-66), for the nonnegative times the
exporter feeds it (so the int components are nonnegative and toNat is exact). -/
def hhmmss_ms (t : ℚ) : String :=
  let it := pyInt t
  let ms := pyRound ((t - (it : ℚ)) * 1000)
  let s := it % 60
  let m := (it / 60) % 60
  let h := it / 3600
  pad2 h.toNat ++ ":" ++ pad2 m.toNat ++ ":" ++ pad2 s.toNat ++ "." ++ pad3 ms.toNat

/-- Python s.strip(slash): drop every leading and trailing slash character. -/
def stripSlash (s : String) : String :=
  String.mk (((s.toList.dropWhile (fun ch => ch = '/')).reverse.dropWhile
    (fun ch => ch = '/')).reverse)

/-- Default key prefix for uploads (environment default, audio_splitter.py). -/
def R2_PRE_DEFAULT : String := "chunks/"

/-- The key-prefix resolution of process_audio_split: an empty or missing
r2_prefix falls back to the default (Python truthiness). -/
def resolveKeyPre (r2Pre : Option String) : String :=
  match r2Pre with
  | some p => if p = "" then R2_PRE_DEFAULT else stripSlash p ++ "/"
  | none => R2_PRE_DEFAULT

/-- Output file base name: f-string part_{i:03d}.{ext}. -/
def partName (i : ℕ) (ext : String) : String := "part_" ++ pad3 i ++ "." ++ ext

/-- One entry of the returned result list.  The public URL is produced by the
out-of-scope Storage Publisher and is a function of the key, so only the key
and the phase flag are carried here. -/
structure ResultEntry where
  key : String
  start_with_inverted : Bool
deriving DecidableEq

/-- Observable external effects of the orchestration, in order: downloads,
prober invocations, transcoder invocations (with their formatted start offset
and duration), and uploads. -/
inductive Event
  | downloadAudio
  | probeAudio
  | downloadVideo
  | probeVideo
  | transcode (startOff dur : String)
  | upload (key : String)
deriving DecidableEq

/-- The transcoder invocations of export_segments (audio_splitter.py
lines 121-143): one per adjacent cut pair, with start offset cuts[i] and
duration max(0, cuts[i+1] - cuts[i]), both formatted by hhmmss_ms. -/
def exportEvents (cuts : List ℚ) : List Event :=
  (List.range (cuts.length - 1)).map (fun i =>
    let ss := cuts.getD i 0
    let tov := cuts.getD (i+1) 0
    Event.transcode (hhmmss_ms ss) (hhmmss_ms (max 0 (tov - ss))))

/-- The result-assembly loop of process_audio_split (lines 215-225): entry j
has key prefix+part_{j+1:03d}.{ext}; its phase flag comes from
clips_passed = int(cuts[j] // cycle), inverted = clips_passed % 2 == 1,
negated when first_inverted is set. -/
def mkEntries (cuts : List ℚ) (cycle : ℚ) (firstInverted : Bool)
    (keyPre ext : String) : List ResultEntry :=
  (List.range (cuts.length - 1)).map (fun j =>
    let segStart := cuts.getD j 0
    let clipsPassed := ⌊segStart / cycle⌋
    let inv := decide (clipsPassed % 2 = 1)
    { key := keyPre ++ partName (j+1) ext
      start_with_inverted := if firstInverted then !inv else inv })

/-- Error taxonomy of process_audio_split: the ValueErrors raised at lines
167-169 (segments), 170-171 (codec), 186 (missing cycle source), 196-197
(cycle <= 0), and the wrapped planner failure at lines 200-203. -/
inductive SplitError
  | invalidSegments
  | invalidCodec
  | missingCycleSource
  | invalidCycle
  | plannerFailed
deriving DecidableEq

/-- Probe answers of the external prober for the downloaded audio and
(when fetched) the reference video. -/
structure Env where
  audioDur : ℚ
  videoDur : ℚ

/-- The tail of process_audio_split after the cycle length has been resolved
(audio_splitter.py lines 196-226): validate cycle, plan, export, publish. -/
def splitAfterCycle (env : Env) (segments : ℤ) (ext : String)
    (firstInverted : Bool) (r2Pre : Option String) (cycle : ℚ)
    (ev : List Event) : Except SplitError (List ResultEntry) × List Event :=
  if cycle ≤ 0 then (.error .invalidCycle, ev)
  else
    match compute_equalized_cycle_cuts env.audioDur segments cycle with
    | .error _ => (.error .plannerFailed, ev)
    | .ok cuts =>
      let entries := mkEntries cuts cycle firstInverted (resolveKeyPre r2Pre) ext
      (.ok entries,
        (ev ++ exportEvents cuts) ++ entries.map (fun e => Event.upload e.key))

/-- process_audio_split (audio_splitter.py lines 150-226): request validation,
audio download and probe, cycle resolution (direct duration or video download
plus probe), planning, export and publishing, with its event trace. -/
def process_audio_split (env : Env) (segments : ℤ) (codec quality ext : String)
    (firstInverted : Bool) (videoDuration : Option ℚ) (videoUrl : Option String)
    (r2Pre : Option String) : Except SplitError (List ResultEntry) × List Event :=
  if segments < 1 then (.error .invalidSegments, [])
  else if ¬ (codec = "mp3" ∨ codec = "aac" ∨ codec = "copy") then
    (.error .invalidCodec, [])
  else
    let ev0 : List Event := [.downloadAudio, .probeAudio]
    match videoDuration with
    | some d => splitAfterCycle env segments ext firstInverted r2Pre d ev0
    | none =>
      match videoUrl with
      | none => (.error .missingCycleSource, ev0)
      | some u =>
        if u = "" then (.error .missingCycleSource, ev0)
        else splitAfterCycle env segments ext firstInverted r2Pre env.videoDur
          (ev0 ++ [.downloadVideo, .probeVideo])

/-- Concrete environment used by the closed instantiations below. -/
def demoEnv : Env := ⟨10, 4⟩

/-- The codec string mp3. -/
def mp3Name : String := "mp3"

/-- An unsupported codec string. -/
def wavName : String := "wav"

/-- A concrete quality argument. -/
def qualName : String := "2"

/-- A concrete output extension. -/
def extName : String := "mp3"

/-- The default result entry used with List.getD. -/
def entryDefault : ResultEntry := ⟨"", false⟩

/-! ### Basic facts about the rounding primitives -/

lemma floor_le_pyRound (q : ℚ) : ⌊q⌋ ≤ pyRound q := by
  unfold pyRound
  split_ifs <;> omega

lemma pyRound_le_floor_add_one (q : ℚ) : pyRound q ≤ ⌊q⌋ + 1 := by
  unfold pyRound
  split_ifs <;> omega

lemma pyRound_ge (q : ℚ) : q - 1/2 ≤ (pyRound q : ℚ) := by
  have h1 := Int.floor_le q
  have h2 := Int.lt_floor_add_one q
  unfold pyRound
  split_ifs <;> push_cast <;> linarith

lemma pyRound_le (q : ℚ) : (pyRound q : ℚ) ≤ q + 1/2 := by
  have h1 := Int.floor_le q
  have h2 := Int.lt_floor_add_one q
  unfold pyRound
  split_ifs <;> push_cast <;> linarith

lemma pyRound_mono {p q : ℚ} (h : p ≤ q) : pyRound p ≤ pyRound q := by
  have hfl : ⌊p⌋ ≤ ⌊q⌋ := Int.floor_le_floor h
  rcases lt_or_eq_of_le hfl with hlt | heq
  · have h1 : pyRound p ≤ ⌊p⌋ + 1 := pyRound_le_floor_add_one p
    have h2 : ⌊q⌋ ≤ pyRound q := floor_le_pyRound q
    omega
  · unfold pyRound
    rw [heq]
    have hr : p - (⌊q⌋ : ℚ) ≤ q - (⌊q⌋ : ℚ) := by linarith
    split_ifs <;> first | omega | (exfalso; linarith)

lemma pyRound_intCast (n : ℤ) : pyRound (n : ℚ) = n := by
  unfold pyRound
  rw [Int.floor_intCast, if_pos (by norm_num)]

lemma round3_mono {p q : ℚ} (h : p ≤ q) : round3 p ≤ round3 q := by
  unfold round3
  have h1 : pyRound (p * 1000) ≤ pyRound (q * 1000) :=
    pyRound_mono (by linarith)
  have h2 : ((pyRound (p * 1000) : ℤ) : ℚ) ≤ ((pyRound (q * 1000) : ℤ) : ℚ) := by
    exact_mod_cast h1
  linarith

lemma round3_ge (q : ℚ) : q - 1/2000 ≤ round3 q := by
  unfold round3
  have := pyRound_ge (q * 1000)
  linarith

lemma round3_le (q : ℚ) : round3 q ≤ q + 1/2000 := by
  unfold round3
  have := pyRound_le (q * 1000)
  linarith

lemma round3_intMul (m : ℤ) : round3 ((m : ℚ) / 1000) = (m : ℚ) / 1000 := by
  unfold round3
  rw [show ((m : ℚ) / 1000) * 1000 = (m : ℚ) by ring, pyRound_intCast]

lemma round3_zero : round3 0 = 0 := by
  have := round3_intMul 0
  simpa using this

/-! ### The planner loop invariant -/

lemma chooseK_step (a c : ℚ) (s mk i kp : ℤ) (h : kp + 1 ≤ mk - (s - 1 - i)) :
    chooseK a c s mk i kp = chooseKStrict a c s mk i kp ∧
    kp < chooseK a c s mk i kp ∧
    chooseK a c s mk i kp ≤ mk - (s - 1 - i) := by
  have heq : chooseK a c s mk i kp = chooseKStrict a c s mk i kp := by
    simp only [chooseK, chooseKStrict]
    rw [if_neg (by omega)]
  refine ⟨heq, ?_, ?_⟩
  · rw [heq]
    simp only [chooseKStrict]
    omega
  · rw [heq]
    simp only [chooseKStrict]
    omega

lemma ksFrom_invariant (a c : ℚ) (s mk : ℤ) :
    ∀ (fuel : ℕ) (i k_prev : ℤ), i + (fuel : ℤ) = s → k_prev + (fuel : ℤ) ≤ mk →
      (ksFrom a c s mk fuel i k_prev).length = fuel ∧
      List.Chain (· < ·) k_prev (ksFrom a c s mk fuel i k_prev) ∧
      (∀ k ∈ ksFrom a c s mk fuel i k_prev, k ≤ mk) ∧
      ksFrom a c s mk fuel i k_prev = ksFromStrict a c s mk fuel i k_prev := by
  intro fuel
  induction fuel with
  | zero =>
    intro i kp _ _
    refine ⟨rfl, List.Chain.nil, ?_, rfl⟩
    intro k hk
    simp [ksFrom] at hk
  | succ n ih =>
    intro i kp hi hk
    have hn : s - 1 - i = (n : ℤ) := by push_cast at hi; omega
    have hstep : kp + 1 ≤ mk - (s - 1 - i) := by push_cast at hk; omega
    obtain ⟨heq, hlt, hle⟩ := chooseK_step a c s mk i kp hstep
    have hrec := ih (i + 1) (chooseK a c s mk i kp)
      (by push_cast at hi ⊢; omega)
      (by push_cast at hk ⊢; omega)
    have hunf : ksFrom a c s mk (n + 1) i kp =
        chooseK a c s mk i kp ::
          ksFrom a c s mk n (i + 1) (chooseK a c s mk i kp) := rfl
    have hunfS : ksFromStrict a c s mk (n + 1) i kp =
        chooseKStrict a c s mk i kp ::
          ksFromStrict a c s mk n (i + 1) (chooseKStrict a c s mk i kp) := rfl
    refine ⟨?_, ?_, ?_, ?_⟩
    · rw [hunf]
      simp [hrec.1]
    · rw [hunf]
      exact List.Chain.cons hlt hrec.2.1
    · intro k hkmem
      rw [hunf] at hkmem
      rcases List.mem_cons.mp hkmem with hk1 | hk2
      · subst hk1; omega
      · exact hrec.2.2.1 k hk2
    · rw [hunf, hunfS, ← heq, hrec.2.2.2, heq]

/-! ### From the chosen indices to the rounded cut list -/

lemma round3_msMul (k : ℤ) (m : ℕ) :
    round3 ((k : ℚ) * ((m : ℚ) / 1000)) = ((k * (m : ℤ) : ℤ) : ℚ) / 1000 := by
  have h : (k : ℚ) * ((m : ℚ) / 1000) = ((k * (m : ℤ) : ℤ) : ℚ) / 1000 := by
    push_cast; ring
  rw [h, round3_intMul]

lemma maxCycleIndex_mul_le (a c : ℚ) (hc : 0 < c) :
    (maxCycleIndex a c : ℚ) * c ≤ a - eps := by
  unfold maxCycleIndex
  have h := Int.floor_le ((a - eps) / c)
  have h2 : (⌊(a - eps) / c⌋ : ℚ) * c ≤ ((a - eps) / c) * c :=
    mul_le_mul_of_nonneg_right h (le_of_lt hc)
  have h3 : ((a - eps) / c) * c = a - eps := by field_simp
  linarith

lemma chain_le_cuts (c a : ℚ) (mk : ℤ) (hc : 0 < c) (hlast : (mk : ℚ) * c ≤ a) :
    ∀ (ks : List ℤ) (kp : ℤ), List.Chain (· < ·) kp ks →
      (∀ k ∈ ks, k ≤ mk) → kp ≤ mk →
      List.Chain (· ≤ ·) (round3 ((kp : ℚ) * c))
        ((ks.map (fun k : ℤ => round3 ((k : ℚ) * c))) ++ [round3 a]) := by
  intro ks
  induction ks with
  | nil =>
    intro kp _ _ hkp
    refine List.Chain.cons ?_ List.Chain.nil
    apply round3_mono
    have h1 : (kp : ℚ) ≤ (mk : ℚ) := by exact_mod_cast hkp
    have h2 : (kp : ℚ) * c ≤ (mk : ℚ) * c :=
      mul_le_mul_of_nonneg_right h1 (le_of_lt hc)
    linarith
  | cons k ks ih =>
    intro kp hchain hmem hkp
    obtain ⟨hlt, hchain2⟩ := List.chain_cons.mp hchain
    refine List.Chain.cons ?_ ?_
    · apply round3_mono
      have h1 : (kp : ℚ) ≤ (k : ℚ) := by exact_mod_cast le_of_lt hlt
      exact mul_le_mul_of_nonneg_right h1 (le_of_lt hc)
    · have hk : k ≤ mk := hmem k (List.mem_cons_self _ _)
      exact ih k hchain2 (fun x hx => hmem x (List.mem_cons_of_mem _ hx)) hk

lemma chain_lt_cuts (m : ℕ) (a : ℚ) (mk : ℤ) (hm : 1 ≤ m)
    (hlast : (mk : ℚ) * ((m : ℚ) / 1000) ≤ a - eps) :
    ∀ (ks : List ℤ) (kp : ℤ), List.Chain (· < ·) kp ks →
      (∀ k ∈ ks, k ≤ mk) → kp ≤ mk →
      List.Chain (· < ·) (round3 ((kp : ℚ) * ((m : ℚ) / 1000)))
        ((ks.map (fun k : ℤ => round3 ((k : ℚ) * ((m : ℚ) / 1000)))) ++ [round3 a]) := by
  intro ks
  induction ks with
  | nil =>
    intro kp _ _ hkp
    refine List.Chain.cons ?_ List.Chain.nil
    rw [round3_msMul]
    have h1 : ((kp * (m : ℤ) : ℤ) : ℚ) / 1000 = (kp : ℚ) * ((m : ℚ) / 1000) := by
      push_cast; ring
    have h2 : (kp : ℚ) * ((m : ℚ) / 1000) ≤ (mk : ℚ) * ((m : ℚ) / 1000) := by
      have hcast : (kp : ℚ) ≤ (mk : ℚ) := by exact_mod_cast hkp
      have hpos : (0 : ℚ) ≤ (m : ℚ) / 1000 := by positivity
      exact mul_le_mul_of_nonneg_right hcast hpos
    have h3 := round3_ge a
    rw [h1]
    unfold eps at hlast
    linarith
  | cons k ks ih =>
    intro kp hchain hmem hkp
    obtain ⟨hlt, hchain2⟩ := List.chain_cons.mp hchain
    refine List.Chain.cons ?_ ?_
    · show round3 ((kp : ℚ) * ((m : ℚ) / 1000)) < round3 ((k : ℚ) * ((m : ℚ) / 1000))
      rw [round3_msMul, round3_msMul]
      have hmpos : (0 : ℤ) < (m : ℤ) := by exact_mod_cast hm
      have h1 : kp * (m : ℤ) < k * (m : ℤ) := mul_lt_mul_of_pos_right hlt hmpos
      have h2 : ((kp * (m : ℤ) : ℤ) : ℚ) < ((k * (m : ℤ) : ℤ) : ℚ) := by
        exact_mod_cast h1
      linarith
    · have hk : k ≤ mk := hmem k (List.mem_cons_self _ _)
      exact ih k hchain2 (fun x hx => hmem x (List.mem_cons_of_mem _ hx)) hk

lemma getLast?_append_one (l : List ℚ) (x : ℚ) : (l ++ [x]).getLast? = some x := by
  simp [List.getLast?_append]

lemma pyRound_eq_low {q : ℚ} {f : ℤ} (hf : ⌊q⌋ = f) (h : q - (f : ℚ) < 1/2) :
    pyRound q = f := by
  unfold pyRound
  rw [hf, if_pos h]

lemma pyRound_eq_high {q : ℚ} {f : ℤ} (hf : ⌊q⌋ = f) (h : 1/2 < q - (f : ℚ)) :
    pyRound q = f + 1 := by
  unfold pyRound
  rw [hf, if_neg (by linarith), if_pos h]

/-! ### Claim theorems: the planner -/

/-- C10: for audioDuration, segments > 1 and cycle > 0 passing the feasibility
check maxK >= segments - 1, the planner loop never takes the degenerate
collapse branch (it computes the same indices as the collapse-free variant),
and the chosen indices are strictly increasing from 0 and bounded by maxK. -/
theorem planner_no_collapse (a c : ℚ) (s : ℤ)
    (hs : 1 < s) (hc : 0 < c) (hfeas : s - 1 ≤ maxCycleIndex a c) :
    ksFrom a c s (maxCycleIndex a c) (s - 1).toNat 1 0 =
      ksFromStrict a c s (maxCycleIndex a c) (s - 1).toNat 1 0 ∧
    List.Chain (· < ·) 0 (ksFrom a c s (maxCycleIndex a c) (s - 1).toNat 1 0) ∧
    ∀ k ∈ ksFrom a c s (maxCycleIndex a c) (s - 1).toNat 1 0,
      k ≤ maxCycleIndex a c := by
  have hcast : (((s - 1).toNat : ℤ)) = s - 1 := Int.toNat_of_nonneg (by omega)
  obtain ⟨_, hchain, hbound, heq⟩ :=
    ksFrom_invariant a c s (maxCycleIndex a c) (s - 1).toNat 1 0
      (by omega) (by omega)
  exact ⟨heq, hchain, hbound⟩

/-- Witness for C10 at audioDuration 10, cycle 3, segments 2. -/
theorem planner_no_collapse_witness :
    ((1 : ℤ) < 2 ∧ (0 : ℚ) < 3 ∧ (2 : ℤ) - 1 ≤ maxCycleIndex 10 3) ∧
    (ksFrom 10 3 2 (maxCycleIndex 10 3) ((2 : ℤ) - 1).toNat 1 0 =
       ksFromStrict 10 3 2 (maxCycleIndex 10 3) ((2 : ℤ) - 1).toNat 1 0 ∧
     List.Chain (· < ·) 0 (ksFrom 10 3 2 (maxCycleIndex 10 3) ((2 : ℤ) - 1).toNat 1 0) ∧
     ∀ k ∈ ksFrom 10 3 2 (maxCycleIndex 10 3) ((2 : ℤ) - 1).toNat 1 0,
       k ≤ maxCycleIndex 10 3) :=
  ⟨⟨by norm_num, by norm_num, by norm_num [maxCycleIndex, eps]⟩,
   planner_no_collapse 10 3 2 (by norm_num) (by norm_num)
     (by norm_num [maxCycleIndex, eps])⟩

/-- C2: for segments > 1 and cycle > 0, when maxK = floor((audioDuration -
1e-3)/cycle) < segments - 1, the planner fails with the
insufficient-cycles error and returns no cut plan. -/
theorem computeCuts_insufficient_cycles (a c : ℚ) (s : ℤ)
    (hs : 1 < s) (hc : 0 < c) (h : maxCycleIndex a c < s - 1) :
    compute_equalized_cycle_cuts a s c = .error .insufficientCycles := by
  simp only [compute_equalized_cycle_cuts]
  rw [if_neg (by omega), if_pos h]

/-- Witness for C2: scenario 3 of the spec, audioDuration 5, segments 3,
cycle 3 (maxK = 1 < 2). -/
theorem computeCuts_insufficient_cycles_witness :
    ((1 : ℤ) < 3 ∧ (0 : ℚ) < 3 ∧ maxCycleIndex 5 3 < 3 - 1) ∧
    compute_equalized_cycle_cuts 5 3 3 = .error .insufficientCycles :=
  ⟨⟨by norm_num, by norm_num, by norm_num [maxCycleIndex, eps]⟩,
   computeCuts_insufficient_cycles 5 3 3 (by norm_num) (by norm_num)
     (by norm_num [maxCycleIndex, eps])⟩

/-- C3: for audioDuration > 0 and any cycle, segments = 1 returns exactly
the two-element plan with no interior cut and no cycle constraint. -/
theorem computeCuts_single_segment (a c : ℚ) (ha : 0 < a) :
    compute_equalized_cycle_cuts a 1 c = .ok [0, a] := by
  simp [compute_equalized_cycle_cuts]

/-- Witness for C3 at audioDuration 10, cycle 3. -/
theorem computeCuts_single_segment_witness :
    (0 : ℚ) < 10 ∧ compute_equalized_cycle_cuts 10 1 3 = .ok [0, 10] :=
  ⟨by norm_num, computeCuts_single_segment 10 3 (by norm_num)⟩

/-- C5: concrete run at audioDuration 10, segments 2, cycle 3: the cut plan
is [0, 6, 10]; inside the single loop iteration maxK = 3, idealK =
round((1 * (10/2))/3) = 2, and (with min_allowed = 0+1 = 1 and max_allowed =
3 - ((2-1)-1) = 3) the chosen index is 2. -/
theorem computeCuts_scenario_ten_two_three :
    compute_equalized_cycle_cuts 10 2 3 = .ok [0, 6, 10] ∧
    maxCycleIndex 10 3 = 3 ∧
    pyRound ((1 : ℚ) * (10 / 2) / 3) = 2 ∧
    chooseK 10 3 2 3 1 0 = 2 := by
  refine ⟨?_, ?_, ?_, ?_⟩ <;>
    norm_num [compute_equalized_cycle_cuts, maxCycleIndex, eps, ksFrom,
      chooseK, pyRound, round3]

/-- C7 counterexample: with segments = 1 the code returns the audio duration
unrounded, so at audioDuration = 1/2000 (= 0.0005) the last element of the
returned plan differs from the duration rounded to 3 decimals (round-half-
to-even gives 0). -/
theorem cutplan_last_unrounded :
    compute_equalized_cycle_cuts (1/2000) 1 1 = .ok [0, 1/2000] ∧
    round3 (1/2000) = 0 ∧ ¬ ((1/2000 : ℚ) = round3 (1/2000)) := by
  refine ⟨?_, ?_, ?_⟩ <;>
    norm_num [compute_equalized_cycle_cuts, round3, pyRound]

/-- C7 (amended): every plan returned for valid inputs (duration > 0,
cycle > 0, segments >= 1) has length segments + 1, is non-decreasing, starts
at 0.0, and ends at the audio duration rounded to 3 decimals when
segments > 1 — but at the exact, unrounded duration when segments = 1. -/
theorem cutplan_shape (a c : ℚ) (s : ℤ) (cuts : List ℚ)
    (ha : 0 < a) (hc : 0 < c) (hs : 1 ≤ s)
    (hok : compute_equalized_cycle_cuts a s c = .ok cuts) :
    (cuts.length : ℤ) = s + 1 ∧
    List.Chain' (· ≤ ·) cuts ∧
    cuts.head? = some 0 ∧
    cuts.getLast? = some (if s = 1 then a else round3 a) := by
  by_cases h1 : s = 1
  · subst h1
    have heq : compute_equalized_cycle_cuts a 1 c = .ok [0, a] := by
      simp [compute_equalized_cycle_cuts]
    rw [heq] at hok
    injection hok with hok
    subst hok
    refine ⟨by norm_num, ?_, rfl, by simp⟩
    exact List.chain'_cons.mpr ⟨le_of_lt ha, List.chain'_singleton a⟩
  · have hs2 : 2 ≤ s := by omega
    have hcast : (((s - 1).toNat : ℤ)) = s - 1 := Int.toNat_of_nonneg (by omega)
    simp only [compute_equalized_cycle_cuts, if_neg h1] at hok
    by_cases hfeas : maxCycleIndex a c < s - 1
    · rw [if_pos hfeas] at hok
      exact absurd hok (by simp)
    · rw [if_neg hfeas] at hok
      injection hok with hok
      obtain ⟨hlen, hchain, hbound, _⟩ :=
        ksFrom_invariant a c s (maxCycleIndex a c) (s - 1).toNat 1 0
          (by omega) (by omega)
      subst hok
      refine ⟨?_, ?_, rfl, ?_⟩
      · simp only [List.length_append, List.length_map, List.length_singleton,
          hlen]
        push_cast
        omega
      · show List.Chain (· ≤ ·) 0
          (((ksFrom a c s (maxCycleIndex a c) (s - 1).toNat 1 0).map
            (fun k : ℤ => round3 ((k : ℚ) * c))) ++ [round3 a])
        have hlast : (maxCycleIndex a c : ℚ) * c ≤ a := by
          have hle := maxCycleIndex_mul_le a c hc
          unfold eps at hle
          linarith
        have h0 : round3 (((0 : ℤ) : ℚ) * c) = 0 := by
          rw [show ((0 : ℤ) : ℚ) * c = 0 by push_cast; ring, round3_zero]
        have hch := chain_le_cuts c a (maxCycleIndex a c) hc hlast
          (ksFrom a c s (maxCycleIndex a c) (s - 1).toNat 1 0) 0
          hchain hbound (by omega)
        rw [h0] at hch
        exact hch
      · rw [if_neg h1]
        exact getLast?_append_one _ _

/-- Witness for C7: spec scenario 1, audioDuration 9, segments 3, cycle 3. -/
theorem cutplan_shape_witness :
    ((0 : ℚ) < 9 ∧ (0 : ℚ) < 3 ∧ (1 : ℤ) ≤ 3 ∧
      compute_equalized_cycle_cuts 9 3 3 = .ok [0, 3, 6, 9]) ∧
    ((([0, 3, 6, 9] : List ℚ).length : ℤ) = 3 + 1 ∧
     List.Chain' (· ≤ ·) [(0 : ℚ), 3, 6, 9] ∧
     ([(0 : ℚ), 3, 6, 9].head? = some 0) ∧
     ([(0 : ℚ), 3, 6, 9].getLast? = some (if (3 : ℤ) = 1 then 9 else round3 9))) :=
  ⟨⟨by norm_num, by norm_num, by norm_num,
    by norm_num [compute_equalized_cycle_cuts, maxCycleIndex, eps, ksFrom,
      chooseK, pyRound, round3]⟩,
   cutplan_shape 9 3 3 [0, 3, 6, 9] (by norm_num) (by norm_num) (by norm_num)
     (by norm_num [compute_equalized_cycle_cuts, maxCycleIndex, eps, ksFrom,
       chooseK, pyRound, round3])⟩

/-- C1 counterexample: all hypotheses of the claim hold (duration 1/512 > 0,
segments 2 > 1, cycle 1/2048 > 0, maxK = 1 >= segments - 1), yet the returned
plan [0, 0, 1/500] is not strictly increasing: the interior cut 1*cycle =
1/2048 rounds to 0.000 at 3 decimals.  (These dyadic inputs are exactly
representable as binary floats, so the Python code returns the same plan.) -/
theorem cuts_not_strict_small_cycle :
    ((0 : ℚ) < 1/512 ∧ (1 : ℤ) < 2 ∧ (0 : ℚ) < 1/2048 ∧
      (2 : ℤ) - 1 ≤ maxCycleIndex (1/512) (1/2048)) ∧
    compute_equalized_cycle_cuts (1/512) 2 (1/2048) = .ok [0, 0, 1/500] ∧
    ¬ List.Chain' (· < ·) [(0 : ℚ), 0, 1/500] := by
  refine ⟨⟨by norm_num, by norm_num, by norm_num, ?_⟩, ?_, ?_⟩
  · norm_num [maxCycleIndex, eps]
  · have hA : pyRound (2 : ℚ) = 2 := pyRound_eq_low (by norm_num) (by norm_num)
    have hB : pyRound (125/256 : ℚ) = 0 :=
      pyRound_eq_low (by norm_num) (by norm_num)
    have hC : pyRound (125/64 : ℚ) = 2 := by
      have h := @pyRound_eq_high (125/64 : ℚ) 1 (by norm_num) (by norm_num)
      norm_num at h
      exact h
    norm_num [compute_equalized_cycle_cuts, maxCycleIndex, eps, ksFrom,
      chooseK, round3, hA, hB, hC]
  · simp [List.chain'_cons]

/-- C1 (amended): when additionally the cycle is a positive integer multiple
of 0.001 (so 3-decimal rounding cannot merge cycle-aligned cuts), the claim
holds as stated: for audioDuration > 0, segments > 1 and feasible inputs the
plan has length segments + 1, is strictly increasing, starts at 0.0, ends at
the duration rounded to 3 decimals, and every interior value is an integer
multiple of the cycle rounded to 3 decimals. -/
theorem cuts_strict_ms_aligned (a : ℚ) (m : ℕ) (s : ℤ)
    (ha : 0 < a) (hs : 1 < s) (hm : 1 ≤ m)
    (hfeas : s - 1 ≤ maxCycleIndex a ((m : ℚ) / 1000)) :
    ∃ cuts, compute_equalized_cycle_cuts a s ((m : ℚ) / 1000) = .ok cuts ∧
      (cuts.length : ℤ) = s + 1 ∧
      List.Chain' (· < ·) cuts ∧
      cuts.head? = some 0 ∧
      cuts.getLast? = some (round3 a) ∧
      ∀ x ∈ (cuts.drop 1).dropLast,
        ∃ k : ℤ, x = round3 ((k : ℚ) * ((m : ℚ) / 1000)) := by
  have hcast : (((s - 1).toNat : ℤ)) = s - 1 := Int.toNat_of_nonneg (by omega)
  have hc : (0 : ℚ) < (m : ℚ) / 1000 := by
    have hm2 : (1 : ℚ) ≤ (m : ℚ) := by exact_mod_cast hm
    positivity
  obtain ⟨hlen, hchain, hbound, _⟩ :=
    ksFrom_invariant a ((m : ℚ) / 1000) s (maxCycleIndex a ((m : ℚ) / 1000))
      (s - 1).toNat 1 0 (by omega) (by omega)
  refine ⟨[0] ++ ((ksFrom a ((m : ℚ) / 1000) s (maxCycleIndex a ((m : ℚ) / 1000))
      (s - 1).toNat 1 0).map (fun k : ℤ => round3 ((k : ℚ) * ((m : ℚ) / 1000))))
      ++ [round3 a], ?_, ?_, ?_, ?_, ?_, ?_⟩
  · simp only [compute_equalized_cycle_cuts]
    rw [if_neg (by omega), if_neg (by omega)]
  · simp only [List.length_append, List.length_map, List.length_singleton, hlen]
    push_cast
    omega
  · show List.Chain (· < ·) 0
      (((ksFrom a ((m : ℚ) / 1000) s (maxCycleIndex a ((m : ℚ) / 1000))
          (s - 1).toNat 1 0).map
        (fun k : ℤ => round3 ((k : ℚ) * ((m : ℚ) / 1000)))) ++ [round3 a])
    have hlast := maxCycleIndex_mul_le a ((m : ℚ) / 1000) hc
    have h0 : round3 (((0 : ℤ) : ℚ) * ((m : ℚ) / 1000)) = 0 := by
      rw [show ((0 : ℤ) : ℚ) * ((m : ℚ) / 1000) = 0 by push_cast; ring,
        round3_zero]
    have hch := chain_lt_cuts m a (maxCycleIndex a ((m : ℚ) / 1000)) hm hlast
      (ksFrom a ((m : ℚ) / 1000) s (maxCycleIndex a ((m : ℚ) / 1000))
        (s - 1).toNat 1 0) 0 hchain hbound (by omega)
    rw [h0] at hch
    exact hch
  · rfl
  · exact getLast?_append_one _ _
  · intro x hx
    have hx2 : x ∈ (ksFrom a ((m : ℚ) / 1000) s
        (maxCycleIndex a ((m : ℚ) / 1000)) (s - 1).toNat 1 0).map
        (fun k : ℤ => round3 ((k : ℚ) * ((m : ℚ) / 1000))) := by
      simpa [List.dropLast_concat] using hx
    obtain ⟨k, _, hk⟩ := List.mem_map.mp hx2
    exact ⟨k, hk.symm⟩

/-- Witness for C1 at audioDuration 10, segments 2, cycle 3000/1000 = 3.0. -/
theorem cuts_strict_ms_aligned_witness :
    ((0 : ℚ) < 10 ∧ (1 : ℤ) < 2 ∧ (1 : ℕ) ≤ 3000 ∧
      (2 : ℤ) - 1 ≤ maxCycleIndex 10 (((3000 : ℕ) : ℚ) / 1000)) ∧
    (∃ cuts, compute_equalized_cycle_cuts 10 2 (((3000 : ℕ) : ℚ) / 1000) = .ok cuts ∧
      (cuts.length : ℤ) = 2 + 1 ∧
      List.Chain' (· < ·) cuts ∧
      cuts.head? = some 0 ∧
      cuts.getLast? = some (round3 10) ∧
      ∀ x ∈ (cuts.drop 1).dropLast,
        ∃ k : ℤ, x = round3 ((k : ℚ) * (((3000 : ℕ) : ℚ) / 1000))) :=
  ⟨⟨by norm_num, by norm_num, by norm_num, by norm_num [maxCycleIndex, eps]⟩,
   cuts_strict_ms_aligned 10 3000 2 (by norm_num) (by norm_num) (by norm_num)
     (by norm_num [maxCycleIndex, eps])⟩

/-! ### Claim theorems: the orchestrator -/

lemma mkEntries_length (cuts : List ℚ) (c : ℚ) (fi : Bool) (pre ext : String) :
    (mkEntries cuts c fi pre ext).length = cuts.length - 1 := by
  simp [mkEntries]

lemma mkEntries_flag (cuts : List ℚ) (c : ℚ) (fi : Bool) (pre ext : String)
    (i : ℕ) (hi : i < cuts.length - 1) :
    ((mkEntries cuts c fi pre ext).getD i entryDefault).start_with_inverted =
      xor (decide (⌊(cuts.getD i 0) / c⌋ % 2 = 1)) fi := by
  unfold mkEntries
  rw [List.getD_eq_getElem?_getD, List.getElem?_map, List.getElem?_range hi]
  cases fi <;> simp

/-- C4 counterexample: the planner itself accepts a non-positive cycle when
segments = 1 — compute_equalized_cycle_cuts(5, 1, -1) returns [0, 5] and
raises nothing, so the claim that the planner function fails with
InvalidCycleError for every cycle <= 0 and segments >= 1 is false. -/
theorem planner_accepts_nonpositive_cycle :
    compute_equalized_cycle_cuts 5 1 (-1) = .ok [0, 5] := by
  norm_num [compute_equalized_cycle_cuts]

/-- C4 (amended): the cycle <= 0 check lives in the orchestrator
process_audio_split, which fails with InvalidCycleError after downloading and
probing the audio but before invoking the planner, the exporter or the
publisher; the planner function itself performs no cycle validation. -/
theorem orchestrator_rejects_nonpositive_cycle (env : Env) (s : ℤ)
    (codec q ext : String) (fi : Bool) (c : ℚ) (vurl : Option String)
    (pre : Option String)
    (hs : 1 ≤ s) (hcodec : codec = "mp3" ∨ codec = "aac" ∨ codec = "copy")
    (hc : c ≤ 0) :
    process_audio_split env s codec q ext fi (some c) vurl pre =
      (.error .invalidCycle, [.downloadAudio, .probeAudio]) := by
  simp only [process_audio_split]
  rw [if_neg (by omega), if_neg (not_not_intro hcodec)]
  simp only [splitAfterCycle]
  rw [if_pos hc]

/-- Witness for C4's amended statement at segments 2, codec mp3, cycle -3. -/
theorem orchestrator_rejects_nonpositive_cycle_witness :
    ((1 : ℤ) ≤ 2 ∧ (mp3Name = "mp3" ∨ mp3Name = "aac" ∨ mp3Name = "copy") ∧
      (-3 : ℚ) ≤ 0) ∧
    process_audio_split demoEnv 2 mp3Name qualName extName false (some (-3))
        none none =
      (.error .invalidCycle, [.downloadAudio, .probeAudio]) :=
  ⟨⟨by norm_num, Or.inl rfl, by norm_num⟩,
   orchestrator_rejects_nonpositive_cycle demoEnv 2 mp3Name qualName extName
     false (-3) none none (by norm_num) (Or.inl rfl) (by norm_num)⟩

/-- C9: a codec outside mp3/aac/copy is rejected with a validation error
(the codec error, or the segments error when that check fires first) before
any download, probe, transcode or upload event is produced. -/
theorem invalid_codec_no_side_effects (env : Env) (s : ℤ)
    (codec q ext : String) (fi : Bool) (vd : Option ℚ) (vurl : Option String)
    (pre : Option String)
    (h : ¬ (codec = "mp3" ∨ codec = "aac" ∨ codec = "copy")) :
    (process_audio_split env s codec q ext fi vd vurl pre).2 = [] ∧
    ((process_audio_split env s codec q ext fi vd vurl pre).1 =
        .error .invalidCodec ∨
     (process_audio_split env s codec q ext fi vd vurl pre).1 =
        .error .invalidSegments) := by
  simp only [process_audio_split]
  by_cases h1 : s < 1
  · rw [if_pos h1]
    exact ⟨rfl, Or.inr rfl⟩
  · rw [if_neg h1, if_pos h]
    exact ⟨rfl, Or.inl rfl⟩

/-- Witness for C9 with codec wav. -/
theorem invalid_codec_no_side_effects_witness :
    (¬ (wavName = "mp3" ∨ wavName = "aac" ∨ wavName = "copy")) ∧
    (process_audio_split demoEnv 2 wavName qualName extName false (some 3)
        none none).2 = [] ∧
    ((process_audio_split demoEnv 2 wavName qualName extName false (some 3)
        none none).1 = .error .invalidCodec ∨
     (process_audio_split demoEnv 2 wavName qualName extName false (some 3)
        none none).1 = .error .invalidSegments) :=
  ⟨by decide,
   invalid_codec_no_side_effects demoEnv 2 wavName qualName extName false
     (some 3) none none (by decide)⟩

/-- C6: on every successful split the i-th result entry's
start_with_inverted equals floor(cuts[i] / cycle) mod 2 == 1, negated when
the caller-supplied first_inverted flag is set (xor). -/
theorem split_phase_flags (env : Env) (s : ℤ) (codec q ext : String)
    (fi : Bool) (c : ℚ) (vurl : Option String) (pre : Option String)
    (entries : List ResultEntry) (evs : List Event) (cuts : List ℚ) (i : ℕ)
    (hrun : process_audio_split env s codec q ext fi (some c) vurl pre =
      (.ok entries, evs))
    (hcuts : compute_equalized_cycle_cuts env.audioDur s c = .ok cuts)
    (hi : i < entries.length) :
    (entries.getD i entryDefault).start_with_inverted =
      xor (decide (⌊(cuts.getD i 0) / c⌋ % 2 = 1)) fi := by
  simp only [process_audio_split] at hrun
  by_cases h1 : s < 1
  · rw [if_pos h1] at hrun
    exact absurd hrun (by simp)
  rw [if_neg h1] at hrun
  by_cases h2 : ¬ (codec = "mp3" ∨ codec = "aac" ∨ codec = "copy")
  · rw [if_pos h2] at hrun
    exact absurd hrun (by simp)
  rw [if_neg h2] at hrun
  simp only [splitAfterCycle] at hrun
  by_cases h3 : c ≤ 0
  · rw [if_pos h3] at hrun
    exact absurd hrun (by simp)
  rw [if_neg h3] at hrun
  rw [hcuts] at hrun
  have hent : entries = mkEntries cuts c fi (resolveKeyPre pre) ext := by
    have hfst := congrArg Prod.fst hrun
    simpa using hfst.symm
  subst hent
  have hlen : i < cuts.length - 1 := by
    have hml := mkEntries_length cuts c fi (resolveKeyPre pre) ext
    omega
  exact mkEntries_flag cuts c fi (resolveKeyPre pre) ext i hlen

/-- Witness for C6: a full successful run with audio duration 10, segments 2,
cycle 3, first_inverted false; entry 1 starts at cut 6, floor(6/3) = 2 is
even, so its flag is false. -/
theorem split_phase_flags_witness :
    (process_audio_split demoEnv 2 mp3Name qualName extName false (some 3)
        none none =
       (.ok (mkEntries [0, 6, 10] 3 false (resolveKeyPre none) extName),
        ([Event.downloadAudio, Event.probeAudio] ++ exportEvents [0, 6, 10]) ++
          (mkEntries [0, 6, 10] 3 false (resolveKeyPre none) extName).map
            (fun e => Event.upload e.key)) ∧
     compute_equalized_cycle_cuts demoEnv.audioDur 2 3 = .ok [0, 6, 10] ∧
     1 < (mkEntries [0, 6, 10] 3 false (resolveKeyPre none) extName).length) ∧
    ((mkEntries [0, 6, 10] 3 false (resolveKeyPre none) extName).getD 1
        entryDefault).start_with_inverted =
      xor (decide (⌊([(0 : ℚ), 6, 10].getD 1 0) / 3⌋ % 2 = 1)) false := by
  have hcuts0 : compute_equalized_cycle_cuts demoEnv.audioDur 2 3 =
      .ok [0, 6, 10] := by
    show compute_equalized_cycle_cuts 10 2 3 = .ok [0, 6, 10]
    norm_num [compute_equalized_cycle_cuts, maxCycleIndex, eps, ksFrom,
      chooseK, pyRound, round3]
  have hrun0 : process_audio_split demoEnv 2 mp3Name qualName extName false
      (some 3) none none =
      (.ok (mkEntries [0, 6, 10] 3 false (resolveKeyPre none) extName),
       ([Event.downloadAudio, Event.probeAudio] ++ exportEvents [0, 6, 10]) ++
         (mkEntries [0, 6, 10] 3 false (resolveKeyPre none) extName).map
           (fun e => Event.upload e.key)) := by
    simp only [process_audio_split]
    rw [if_neg (by norm_num), if_neg (by decide)]
    simp only [splitAfterCycle]
    rw [if_neg (by norm_num), hcuts0]
  have hlen0 : 1 < (mkEntries [0, 6, 10] 3 false
      (resolveKeyPre none) extName).length := by
    simp [mkEntries_length]
  exact ⟨⟨hrun0, hcuts0, hlen0⟩,
    split_phase_flags demoEnv 2 mp3Name qualName extName false 3 none none
      (mkEntries [0, 6, 10] 3 false (resolveKeyPre none) extName) _
      [0, 6, 10] 1 hrun0 hcuts0 hlen0⟩

/-! ### Claim theorems: the timestamp formatter -/

/-- C8: the code bug.  At t = 0.9999 the millisecond computation rounds the
fractional part up to 1000, so the produced string is 00:00:00.1000 — a
four-digit millisecond field instead of the claimed HH:MM:SS.mmm format with
a three-digit field in 000..999 (and such a string is parsed by the
transcoder as 0.1 s, a full 0.9 s away from t). -/
theorem hhmmss_ms_four_digit_ms :
    pyInt (9999/10000 : ℚ) = 0 ∧
    pyRound (((9999/10000 : ℚ) - ((0 : ℤ) : ℚ)) * 1000) = 1000 ∧
    hhmmss_ms (9999/10000) = "00:00:00.1000" := by
  have h0 : pyInt (9999/10000 : ℚ) = 0 := by
    unfold pyInt
    rw [if_neg (by norm_num)]
    norm_num
  have hms : pyRound ((9999/10 : ℚ)) = 1000 := by
    have h := @pyRound_eq_high (9999/10 : ℚ) 999 (by norm_num) (by norm_num)
    norm_num at h
    exact h
  refine ⟨h0, ?_, ?_⟩
  · rw [show ((9999/10000 : ℚ) - ((0 : ℤ) : ℚ)) * 1000 = 9999/10 by norm_num]
    exact hms
  · simp only [hhmmss_ms, h0]
    rw [show ((9999/10000 : ℚ) - ((0 : ℤ) : ℚ)) * 1000 = 9999/10 by norm_num,
      hms]
    decide

end MediaWorker
